import Mathlib

/-!
Verification of the unified-diff printer and the git-header helpers of the
`go-diff` repository (package `diff`).

The printing code (`print.go`) is embedded directly.  Byte strings are
modelled as `List Char` (every byte of interest is an ASCII character, and
bytes produced by escape decoding are represented as characters with the
corresponding code).  The structures `Hunk` and `FileDiff`, the message
constants, and the helpers `readQuotedFilename`, `parseDiffGitArgs` and
`xheadersLessFunc` are declared outside the available source; they are
modelled from the specification, constrained by the test vectors that are
part of the source.
-/

namespace GoDiff

/-- Modelled from the spec: a hunk of a file diff (section 3 of the spec).
The four range numbers are non-negative integers; `Body` is a raw byte
sequence; `OrigNoNewlineAt` is a byte offset into `Body` (0 means "no
mid-body marker").  The Go `int32` fields are modelled as `Nat`, following
the data model's non-negativity requirement. -/
structure Hunk where
  OrigStartLine : Nat
  OrigLines : Nat
  NewStartLine : Nat
  NewLines : Nat
  Section : String
  Body : List Char
  OrigNoNewlineAt : Nat

/-- Modelled from the spec: one file's diff (section 3 of the spec).
Timestamps are held as already-formatted strings, because the timestamp
layout is an opaque external collaborator; `Hunks = none` models a nil
hunk slice, `some []` an empty-but-present one. -/
structure FileDiff where
  OrigName : String
  NewName : String
  OrigTime : Option String
  NewTime : Option String
  Extended : List String
  Hunks : Option (List Hunk)

/-- Modelled from the spec: the fixed sentinel of the no-newline marker
(the conventional notice used by diff tooling). -/
def noNewlineMessage : String := "\\ No newline at end of file"

/-- The marker line written by `printNoNewlineMessage`: the sentinel
followed by a newline. -/
def noNewlineLine : List Char := noNewlineMessage.data ++ ['\n']

/-- Modelled from the spec: the fixed two-placeholder template of the
single-sided "only in" message, instantiated with a directory and a
basename. -/
def onlyInMessage (dir base : String) : List Char :=
  ("Only in " ++ dir ++ ": " ++ base ++ "\n").data

/-- Modelled from the spec: the basename component of a path (Go
`path/filepath.Base`, an external collaborator): trailing slashes are
removed, then the part after the last slash is returned; the empty path
gives `"."` and an all-slash path gives `"/"`. -/
def filepathBase (p : String) : String :=
  if p = "" then "."
  else
    let r := p.data.reverse.dropWhile (· = '/')
    if r = [] then "/" else ⟨(r.takeWhile (· ≠ '/')).reverse⟩

/-- Modelled from the spec: the directory component of a path (Go
`path/filepath.Dir`, an external collaborator), simplified to splitting at
the last slash; dot-segment cleaning is not modelled. -/
def filepathDir (p : String) : String :=
  let r := p.data.reverse.dropWhile (· = '/')
  let r := r.dropWhile (· ≠ '/')
  let r := r.dropWhile (· = '/')
  if r = [] then (if p.data.head? = some '/' then "/" else ".") else ⟨r.reverse⟩

/-- Escape one character the way Go `strconv.Quote` (the `%q` verb) does,
restricted to ASCII: quote and backslash get a backslash escape, the named
control characters use their letter escapes, the remaining control
characters (and DEL) use a two-digit hex escape, printable characters are
kept verbatim.  Characters beyond ASCII are kept verbatim (they are
assumed printable; the Unicode printability table is not modelled). -/
def quoteChar (c : Char) : List Char :=
  if c = '"' then ['\\', '"']
  else if c = '\\' then ['\\', '\\']
  else if c = '\x07' then ['\\', 'a']
  else if c = '\x08' then ['\\', 'b']
  else if c = '\x0c' then ['\\', 'f']
  else if c = '\n' then ['\\', 'n']
  else if c = '\r' then ['\\', 'r']
  else if c = '\t' then ['\\', 't']
  else if c = '\x0b' then ['\\', 'v']
  else if c.toNat < 0x20 ∨ c.toNat = 0x7f then
    ['\\', 'x', hexDigit (c.toNat / 16), hexDigit (c.toNat % 16)]
  else [c]
where
  /-- Lower-case hexadecimal digit for a value below 16. -/
  hexDigit (n : Nat) : Char :=
    if n < 10 then Char.ofNat ('0'.toNat + n) else Char.ofNat ('a'.toNat + n - 10)

/-- Go `strconv.Quote`: wrap in double quotes, escaping each character. -/
def goQuote (s : String) : String :=
  ⟨'"' :: s.data.flatMap quoteChar ++ ['"']⟩

/-- `quote` from `print.go`: `/dev/null` and strings already starting with
a double quote pass through; everything else is `%q`-quoted. -/
def quote (s : String) : String :=
  if s = "/dev/null" then s
  else if s.data.head? = some '"' then s
  else goQuote s

/-- Options record for printing (`PrintFileDiffOptions` in `print.go`). -/
structure PrintFileDiffOptions where
  quoteNames : Bool

/-- A functional option, as in `print.go`. -/
def PrintFileDiffOption : Type := PrintFileDiffOptions → PrintFileDiffOptions

/-- `WithQuotedNames` from `print.go`. -/
def WithQuotedNames : PrintFileDiffOption := fun o => { o with quoteNames := true }

/-- `getOptions` from `print.go`: apply each option to the zero value. -/
def getOptions (opts : List PrintFileDiffOption) : PrintFileDiffOptions :=
  opts.foldl (fun o f => f o) ⟨false⟩

/-- `printFileHeader` from `print.go`: fixed marker, filename (quoted on
request), optional tab plus formatted timestamp, newline. -/
def printFileHeader (pre : String) (filename : String) (timestamp : Option String)
    (quoteName : Bool) : List Char :=
  let fn := if quoteName then quote filename else filename
  (pre ++ fn).data ++ (match timestamp with
    | some t => '\t' :: t.data
    | none => []) ++ ['\n']

/-- `printQuotedXheader` from `print.go`: rewrite `diff --git`,
`rename from ` and `rename to ` lines with freshly quoted names, pass
everything else through verbatim, always with a trailing newline. -/
def printQuotedXheader (d : FileDiff) (xheader : String) : List Char :=
  if xheader.data.take 10 = "diff --git".data then
    ("diff --git " ++ quote d.OrigName ++ " " ++ quote d.NewName).data ++ ['\n']
  else if xheader.data.take 12 = "rename from ".data then
    ("rename from " ++ quote ⟨xheader.data.drop 12⟩).data ++ ['\n']
  else if xheader.data.take 10 = "rename to ".data then
    ("rename to " ++ quote ⟨xheader.data.drop 10⟩).data ++ ['\n']
  else xheader.data ++ ['\n']

/-- The extended-header loop of `PrintFileDiff` (`print.go` lines 54-65):
each extended header line, quoted when requested, each on its own line. -/
def printExtendedHeaders (d : FileDiff) (opts : PrintFileDiffOptions) : List Char :=
  d.Extended.foldl
    (fun buf x => buf ++ (if opts.quoteNames then printQuotedXheader d x else x.data ++ ['\n']))
    []

/-- One iteration of the `PrintHunks` loop of `print.go`: append the
`@@`-range line (with optional section), then the body (split at
`OrigNoNewlineAt` with the marker line inserted when that offset is
non-zero), then a newline plus marker line when the body does not end in
a newline byte. -/
def printHunkStep (buf : List Char) (hunk : Hunk) : List Char :=
  let a := hunk.OrigStartLine
  let b := hunk.OrigLines
  let c := hunk.NewStartLine
  let d := hunk.NewLines
  let buf := buf ++ ("@@ -" ++ toString a ++ "," ++ toString b ++
    " +" ++ toString c ++ "," ++ toString d ++ " @@").data
  let buf := if hunk.Section ≠ "" then buf ++ (" " ++ hunk.Section).data else buf
  let buf := buf ++ ['\n']
  let buf :=
    if hunk.OrigNoNewlineAt = 0 then buf ++ hunk.Body
    else buf ++ hunk.Body.take hunk.OrigNoNewlineAt ++ noNewlineLine ++
      hunk.Body.drop hunk.OrigNoNewlineAt
  if hunk.Body.getLast? ≠ some '\n' then buf ++ '\n' :: noNewlineLine else buf

/-- `PrintHunks` from `print.go`: the loop over the hunks. -/
def PrintHunks (hunks : List Hunk) : List Char :=
  hunks.foldl printHunkStep []

/-- One iteration of `PrintHunks` with the Go slice bounds checks made
explicit: slicing `Body[:n]` and `Body[n:]` is out of range when `n`
exceeds the body length (slice capacity is modelled as equal to length),
in which case the iteration aborts (`none` models the Go panic). -/
def printHunkStepChecked (buf : List Char) (hunk : Hunk) : Option (List Char) :=
  let a := hunk.OrigStartLine
  let b := hunk.OrigLines
  let c := hunk.NewStartLine
  let d := hunk.NewLines
  let buf := buf ++ ("@@ -" ++ toString a ++ "," ++ toString b ++
    " +" ++ toString c ++ "," ++ toString d ++ " @@").data
  let buf := if hunk.Section ≠ "" then buf ++ (" " ++ hunk.Section).data else buf
  let buf := buf ++ ['\n']
  let next : Option (List Char) :=
    if hunk.OrigNoNewlineAt = 0 then some (buf ++ hunk.Body)
    else if hunk.OrigNoNewlineAt ≤ hunk.Body.length then
      some (buf ++ hunk.Body.take hunk.OrigNoNewlineAt ++ noNewlineLine ++
        hunk.Body.drop hunk.OrigNoNewlineAt)
    else none
  next.map (fun buf =>
    if hunk.Body.getLast? ≠ some '\n' then buf ++ '\n' :: noNewlineLine else buf)

/-- `PrintHunks` with the bounds-checked loop body. -/
def PrintHunksChecked (hunks : List Hunk) : Option (List Char) :=
  hunks.foldlM printHunkStepChecked []

/-- `PrintFileDiff` from `print.go`: extended headers; then the one-sided
"only in" message when `NewName` is empty; then nothing more when `Hunks`
is nil; otherwise the `---`/`+++` file header pair and the hunks. -/
def PrintFileDiff (d : FileDiff) (options : List PrintFileDiffOption) : List Char :=
  let opts := getOptions options
  let buf := printExtendedHeaders d opts
  if d.NewName = "" then
    buf ++ onlyInMessage (filepathDir d.OrigName) (filepathBase d.OrigName)
  else
    match d.Hunks with
    | none => buf
    | some hs =>
      buf ++ printFileHeader "--- " d.OrigName d.OrigTime opts.quoteNames ++
        printFileHeader "+++ " d.NewName d.NewTime opts.quoteNames ++ PrintHunks hs

/-- `PrintMultiFileDiff` from `print.go`: print each file diff in turn
into one buffer. -/
def PrintMultiFileDiff (ds : List FileDiff) (options : List PrintFileDiffOption) : List Char :=
  ds.foldl (fun buf d => buf ++ PrintFileDiff d options) []

/-! Specification-side descriptions of one hunk's rendering, written from
the words of the spec (section 4.4) for comparison with `PrintHunks`. -/

/-- The range header line of one hunk as the spec words it:
`@@ -<origStartLine>,<origLines> +<newStartLine>,<newLines> @@`, a single
space and the section exactly when the section is non-empty, and a
terminating newline. -/
def hunkHeaderSpec (h : Hunk) : List Char :=
  ("@@ -" ++ toString h.OrigStartLine ++ "," ++ toString h.OrigLines ++
      " +" ++ toString h.NewStartLine ++ "," ++ toString h.NewLines ++ " @@").data ++
    (if h.Section = "" then [] else ' ' :: h.Section.data) ++ ['\n']

/-- The body of one hunk as the spec words it: the body bytes, split at
the byte offset `OrigNoNewlineAt` with the marker line between the two
pieces when that offset is non-zero. -/
def hunkBodySpec (h : Hunk) : List Char :=
  if h.OrigNoNewlineAt = 0 then h.Body
  else h.Body.take h.OrigNoNewlineAt ++ noNewlineLine ++ h.Body.drop h.OrigNoNewlineAt

/-- The trailing part of one hunk's rendering: when the body does not end
with a newline byte, an appended newline followed by the marker line. -/
def hunkTrailerSpec (h : Hunk) : List Char :=
  if h.Body.getLast? = some '\n' then [] else '\n' :: noNewlineLine

/-- One hunk's complete rendering per the spec. -/
def renderHunkSpec (h : Hunk) : List Char :=
  hunkHeaderSpec h ++ hunkBodySpec h ++ hunkTrailerSpec h

/-! The filename token decoder and the `diff --git` argument splitter.
These functions are declared outside the available source (only their
tests are under `src/`); they are modelled from the specification,
corrected where the source's own test vectors contradict it: the tests
require `\n` and octal escapes to be interpreted, i.e. full Go
string-literal unquoting. -/

/-- Hexadecimal digit value of a character, if any. -/
def hexVal (c : Char) : Option Nat :=
  if '0' ≤ c ∧ c ≤ '9' then some (c.toNat - '0'.toNat)
  else if 'a' ≤ c ∧ c ≤ 'f' then some (c.toNat - 'a'.toNat + 10)
  else if 'A' ≤ c ∧ c ≤ 'F' then some (c.toNat - 'A'.toNat + 10)
  else none

/-- Octal digit value of a character, if any. -/
def octVal (c : Char) : Option Nat :=
  if '0' ≤ c ∧ c ≤ '7' then some (c.toNat - '0'.toNat) else none

/-- Whether a code point may be written by a `\u`/`\U` escape (Go rejects
surrogates and values beyond the maximal rune). -/
def validRune (n : Nat) : Bool :=
  decide (n < 0xd800) || (decide (0xe000 ≤ n) && decide (n ≤ 0x10ffff))

/-- UTF-8 encoding of a code point, as a list of byte-valued characters. -/
def utf8Encode (n : Nat) : List Char :=
  if n < 0x80 then [Char.ofNat n]
  else if n < 0x800 then
    [Char.ofNat (0xc0 + n / 64), Char.ofNat (0x80 + n % 64)]
  else if n < 0x10000 then
    [Char.ofNat (0xe0 + n / 4096), Char.ofNat (0x80 + n / 64 % 64), Char.ofNat (0x80 + n % 64)]
  else
    [Char.ofNat (0xf0 + n / 262144), Char.ofNat (0x80 + n / 4096 % 64),
      Char.ofNat (0x80 + n / 64 % 64), Char.ofNat (0x80 + n % 64)]

/-- Modelled from the spec: Go string-literal unquoting
(`strconv.Unquote`) applied to the text between the two quotes: raw
newlines and raw quotes are malformed, a backslash starts one of the Go
escapes (named single characters, two-digit hex, three-digit octal up to
255, `\u`/`\U` with a valid rune, quote, backslash), anything else after a
backslash is malformed, every other character is copied verbatim (bytes
beyond ASCII are copied verbatim, valid UTF-8 being assumed). -/
def unquoteChars : List Char → Option (List Char)
  | [] => some []
  | '\\' :: 'a' :: r => (unquoteChars r).map ('\x07' :: ·)
  | '\\' :: 'b' :: r => (unquoteChars r).map ('\x08' :: ·)
  | '\\' :: 'f' :: r => (unquoteChars r).map ('\x0c' :: ·)
  | '\\' :: 'n' :: r => (unquoteChars r).map ('\n' :: ·)
  | '\\' :: 'r' :: r => (unquoteChars r).map ('\r' :: ·)
  | '\\' :: 't' :: r => (unquoteChars r).map ('\t' :: ·)
  | '\\' :: 'v' :: r => (unquoteChars r).map ('\x0b' :: ·)
  | '\\' :: '\\' :: r => (unquoteChars r).map ('\\' :: ·)
  | '\\' :: '\'' :: r => (unquoteChars r).map ('\'' :: ·)
  | '\\' :: '"' :: r => (unquoteChars r).map ('"' :: ·)
  | '\\' :: 'x' :: h1 :: h2 :: r =>
    (match hexVal h1, hexVal h2 with
      | some v1, some v2 => (unquoteChars r).map (Char.ofNat (16 * v1 + v2) :: ·)
      | _, _ => none)
  | '\\' :: 'u' :: h1 :: h2 :: h3 :: h4 :: r =>
    (match hexVal h1, hexVal h2, hexVal h3, hexVal h4 with
      | some v1, some v2, some v3, some v4 =>
        let v := 4096 * v1 + 256 * v2 + 16 * v3 + v4
        if validRune v then (unquoteChars r).map (utf8Encode v ++ ·) else none
      | _, _, _, _ => none)
  | '\\' :: 'U' :: h1 :: h2 :: h3 :: h4 :: h5 :: h6 :: h7 :: h8 :: r =>
    (match hexVal h1, hexVal h2, hexVal h3, hexVal h4,
        hexVal h5, hexVal h6, hexVal h7, hexVal h8 with
      | some v1, some v2, some v3, some v4, some v5, some v6, some v7, some v8 =>
        let v := 268435456 * v1 + 16777216 * v2 + 1048576 * v3 + 65536 * v4 +
          4096 * v5 + 256 * v6 + 16 * v7 + v8
        if validRune v then (unquoteChars r).map (utf8Encode v ++ ·) else none
      | _, _, _, _, _, _, _, _ => none)
  | '\\' :: d1 :: d2 :: d3 :: r =>
    (match octVal d1, octVal d2, octVal d3 with
      | some o1, some o2, some o3 =>
        let v := 64 * o1 + 8 * o2 + o3
        if v ≤ 255 then (unquoteChars r).map (Char.ofNat v :: ·) else none
      | _, _, _ => none)
  | '\\' :: _ => none
  | '\n' :: _ => none
  | '"' :: _ => none
  | c :: rest => (unquoteChars rest).map (c :: ·)

/-- Modelled from the spec: the scan for the closing quote — the first
quote preceded by an even run of backslashes ends the token; the scan
returns the text before that quote and the unconsumed remainder after it.
The second argument counts the backslashes immediately before the current
position. -/
def splitAtCloseQuote : List Char → Nat → Option (List Char × List Char)
  | [], _ => none
  | c :: rest, bs =>
    if c = '"' then
      if bs % 2 = 0 then some ([], rest)
      else (splitAtCloseQuote rest 0).map (fun p => (c :: p.1, p.2))
    else if c = '\\' then (splitAtCloseQuote rest (bs + 1)).map (fun p => (c :: p.1, p.2))
    else (splitAtCloseQuote rest 0).map (fun p => (c :: p.1, p.2))

/-- Modelled from the spec: `readQuotedFilename` — the input must start
with a double quote; the token runs to the first closing quote not
escaped by backslashes; the token's content is unquoted per Go
string-literal rules; the text after the closing quote is returned
unmodified as the remainder.  `none` models the malformed-token error. -/
def readQuotedFilename (s : List Char) : Option (List Char × List Char) :=
  match s with
  | [] => none
  | c :: rest =>
    if c = '"' then
      match splitAtCloseQuote rest 0 with
      | none => none
      | some (content, rem) =>
        match unquoteChars content with
        | none => none
        | some v => some (v, rem)
    else none

/-- Modelled from the spec: argument extraction of `parseDiffGitArgs`.
A leading quote means the first argument is quoted; it must be followed
by a space and a second argument that is either quoted and consumes the
rest exactly, or unquoted and free of quote characters.  Otherwise a
trailing quote means the second argument is quoted: the text before the
first quote, minus the mandatory space, is the first argument.  Otherwise
both arguments are unquoted: the input must contain no quote character
and a space away from the edges; when the remainder after the first space
has no further space the input splits at the first space, and otherwise
the equal-length heuristic demanded by the source's test vectors applies:
the input must have odd length with a space in the middle, splitting
there. -/
def extractDiffGitArgs (s : List Char) : Option (List Char × List Char) :=
  if s.length < 3 then none
  else if s.head? = some '"' then
    match readQuotedFilename s with
    | none => none
    | some (first, rem) =>
      match rem with
      | ' ' :: rest =>
        if rest.head? = some '"' then
          match readQuotedFilename rest with
          | some (second, []) => some (first, second)
          | _ => none
        else if rest ≠ [] ∧ ¬ rest.contains '"' then some (first, rest)
        else none
      | _ => none
  else if s.getLast? = some '"' then
    let first := s.takeWhile (· ≠ '"')
    let rest := s.dropWhile (· ≠ '"')
    if first.getLast? = some ' ' then
      match readQuotedFilename rest with
      | some (second, []) => some (first.dropLast, second)
      | _ => none
    else none
  else if s.contains '"' then none
  else
    match s.findIdx? (· = ' ') with
    | none => none
    | some i =>
      if i = 0 ∨ i = s.length - 1 then none
      else
        let after := s.drop (i + 1)
        if ¬ after.contains ' ' then some (s.take i, after)
        else if s.length % 2 = 1 ∧ (s.drop (s.length / 2)).head? = some ' ' then
          some (s.take (s.length / 2), s.drop (s.length / 2 + 1))
        else none

/-- Modelled from the spec: `parseDiffGitArgs` — extract the two
arguments and succeed only when both are non-empty (`none` models the
boolean failure). -/
def parseDiffGitArgs (s : List Char) : Option (List Char × List Char) :=
  match extractDiffGitArgs s with
  | some (f, t) => if f ≠ [] ∧ t ≠ [] then some (f, t) else none
  | none => none

/-- Written from the spec's words (section 4.2, step 2): whether a string
parses as one complete second argument consuming the rest exactly — a
quoted token with empty remainder, or a non-empty unquoted string. -/
def isCompleteSecondArg (t : List Char) : Bool :=
  if t.head? = some '"' then
    match readQuotedFilename t with
    | some (_, []) => true
    | _ => false
  else !t.isEmpty

/-- Written from the spec's words: try every space position left to
right, accepting the first whose remainder is a complete second argument
(the accumulator holds the reversed consumed part). -/
def firstValidSpaceSplitAux : List Char → List Char → Option (List Char × List Char)
  | _, [] => none
  | acc, c :: rest =>
    if c = ' ' ∧ acc ≠ [] ∧ isCompleteSecondArg rest then some (acc.reverse, rest)
    else firstValidSpaceSplitAux (c :: acc) rest

/-- Written from the spec's words: the split of an unquoted input at the
first left-to-right space whose remainder parses as a complete second
argument. -/
def firstValidSpaceSplit (s : List Char) : Option (List Char × List Char) :=
  firstValidSpaceSplitAux [] s

/-! The extended-header orderer, modelled from the spec (section 4.3) and
the source's test. -/

/-- Byte-wise lexicographic comparison of character lists. -/
def lexLt : List Char → List Char → Bool
  | _, [] => false
  | [], _ :: _ => true
  | a :: as, b :: bs => if a = b then lexLt as bs else decide (a < b)

/-- Whether `s` starts with `p`. -/
def strStarts (s p : List Char) : Bool := p.isPrefixOf s

/-- Modelled from the spec: classification of an extended-header line by
its prefix — `diff --git` before `old mode` before `new mode` before the
other recognized kinds (similarity/rename/index), with unrecognized lines
last. -/
def xheaderRank (s : String) : Nat :=
  if strStarts s.data "diff --git".data then 0
  else if strStarts s.data "old mode".data then 1
  else if strStarts s.data "new mode".data then 2
  else if strStarts s.data "similarity index".data then 3
  else if strStarts s.data "rename from".data then 3
  else if strStarts s.data "rename to".data then 3
  else if strStarts s.data "index".data then 3
  else 4

/-- Modelled from the spec: the extended-header ordering predicate —
lower rank first; the recognized non-mode kinds keep any stable relative
order among themselves; unrecognized lines compare lexically among
themselves. -/
def xheadersLessFunc (a b : String) : Bool :=
  decide (xheaderRank a < xheaderRank b) ||
    (xheaderRank a == 4 && xheaderRank b == 4 && lexLt a.data b.data)

/-- The non-strict comparison fed to the sort: `a` may come before `b`
exactly when `b` need not come before `a`. -/
def xheaderLe (a b : String) : Bool := !xheadersLessFunc b a

/-- The seven recognized extended-header lines of the source's test. -/
def possibleXheaders : List String :=
  ["old mode 100755", "new mode 100644", "diff --git a/file1 b/file2",
    "similarity index 70%", "rename from file1", "rename to file2",
    "index a9f9a6b..b0e5e4f"]

/-- Sorting a list of extended-header lines with the ordering predicate
(a comparison-based sort, as `sort.Slice` in the source's test). -/
def sortXheaders (l : List String) : List String := l.mergeSort xheaderLe

/-! ## Helper lemmas -/

/-- A left fold that only appends to its accumulator is the accumulator
followed by the concatenation of the appended pieces. -/
theorem foldl_append_eq {α β : Type} (f : α → List β) :
    ∀ (l : List α) (buf : List β),
      l.foldl (fun b a => b ++ f a) buf = buf ++ (l.map f).flatten
  | [], buf => by simp
  | a :: l, buf => by
    simp only [List.foldl_cons, List.map_cons, List.flatten_cons]
    rw [foldl_append_eq f l, List.append_assoc]

/-- The loop body of `PrintHunks` appends exactly one hunk's rendering. -/
theorem printHunkStep_eq (buf : List Char) (hunk : Hunk) :
    printHunkStep buf hunk = buf ++ renderHunkSpec hunk := by
  simp only [printHunkStep, renderHunkSpec, hunkHeaderSpec, hunkBodySpec, hunkTrailerSpec]
  by_cases hs : hunk.Section = "" <;>
    by_cases hn : hunk.OrigNoNewlineAt = 0 <;>
    by_cases hl : hunk.Body.getLast? = some '\n' <;>
      simp [hs, hn, hl, List.append_assoc, String.data_append]

/-- `PrintHunks` is the concatenation of the per-hunk renderings. -/
theorem printHunks_eq_flatten (hunks : List Hunk) :
    PrintHunks hunks = (hunks.map renderHunkSpec).flatten := by
  have step : ∀ (l : List Hunk) (buf : List Char),
      l.foldl printHunkStep buf = buf ++ (l.map renderHunkSpec).flatten := by
    intro l
    induction l with
    | nil => intro buf; simp
    | cons h t ih =>
      intro buf
      simp only [List.foldl_cons, List.map_cons, List.flatten_cons]
      rw [printHunkStep_eq, ih, List.append_assoc]
  simpa [PrintHunks] using step hunks []

/-! ## Claims -/

/-- C1: `PrintHunks` renders every hunk as the range header line
`@@ -a,b +c,d @@` (followed by a single space and the section exactly
when the section is non-empty, terminated by a newline), followed by the
hunk body with the no-newline marker line inserted at byte offset
`OrigNoNewlineAt` when that offset is non-zero (the body split at that
offset with the marker line between the two pieces), followed by the
trailing marker piece for a body without final newline; the output for a
list of hunks is the concatenation of the per-hunk renderings with no
extra separator. -/
theorem printHunks_renders_hunks (hunks : List Hunk) :
    PrintHunks hunks =
      (hunks.map (fun h => hunkHeaderSpec h ++ hunkBodySpec h ++ hunkTrailerSpec h)).flatten :=
  printHunks_eq_flatten hunks

/-- C2: for a hunk whose body does not end with a newline byte,
`PrintHunks` appends a newline and then the marker line after the body,
so the printed output ends in the marker line immediately after the
inserted newline; the trailing piece is this single newline-plus-marker,
so it never duplicates the mid-body marker implied by a non-zero
`OrigNoNewlineAt` (which sits inside `hunkBodySpec`). -/
theorem printHunks_trailing_marker (h : Hunk) (hnl : h.Body.getLast? ≠ some '\n') :
    PrintHunks [h] = hunkHeaderSpec h ++ hunkBodySpec h ++ ('\n' :: noNewlineLine) := by
  have := printHunks_eq_flatten [h]
  simpa [renderHunkSpec, hunkTrailerSpec, hnl] using this

/-- Witness for C2 at a concrete hunk whose body lacks a final newline. -/
theorem printHunks_trailing_marker_witness :
    PrintHunks [⟨1, 2, 3, 4, "", ['a', '\n', 'b'], 0⟩] =
      hunkHeaderSpec ⟨1, 2, 3, 4, "", ['a', '\n', 'b'], 0⟩ ++
        hunkBodySpec ⟨1, 2, 3, 4, "", ['a', '\n', 'b'], 0⟩ ++ ('\n' :: noNewlineLine) :=
  printHunks_trailing_marker ⟨1, 2, 3, 4, "", ['a', '\n', 'b'], 0⟩ (by decide)

/-- C9: a multi-file print is the concatenation, in input order, of each
file's rendering with the same options and no inter-file separator. -/
theorem printMultiFileDiff_concat (ds : List FileDiff) (options : List PrintFileDiffOption) :
    PrintMultiFileDiff ds options = (ds.map (fun d => PrintFileDiff d options)).flatten := by
  simpa using foldl_append_eq (fun d => PrintFileDiff d options) ds []

/-- C3: when `NewName` is empty, `PrintFileDiff` emits the extended
headers and then exactly the single-sided "only in" message built from
the directory and basename components of `OrigName`, and stops — no
`---`/`+++` file header lines and no hunk content follow. -/
theorem printFileDiff_empty_newName (d : FileDiff) (options : List PrintFileDiffOption)
    (h : d.NewName = "") :
    PrintFileDiff d options =
      printExtendedHeaders d (getOptions options) ++
        onlyInMessage (filepathDir d.OrigName) (filepathBase d.OrigName) := by
  simp [PrintFileDiff, h]

/-- Witness for C3 at a concrete single-sided file diff. -/
theorem printFileDiff_empty_newName_witness :
    PrintFileDiff ⟨"a/b/f.txt", "", none, none, ["diff --git a/b/f.txt b/b/f.txt"], none⟩ [] =
      printExtendedHeaders
          ⟨"a/b/f.txt", "", none, none, ["diff --git a/b/f.txt b/b/f.txt"], none⟩
          (getOptions []) ++
        onlyInMessage (filepathDir "a/b/f.txt") (filepathBase "a/b/f.txt") :=
  printFileDiff_empty_newName
    ⟨"a/b/f.txt", "", none, none, ["diff --git a/b/f.txt b/b/f.txt"], none⟩ [] rfl

/-- C8: for a non-empty `NewName`, a nil hunk sequence stops the printing
right after the extended headers (no file header lines, no hunk content),
whereas an empty-but-present hunk sequence still gets the `---`/`+++`
file header pair. -/
theorem printFileDiff_nil_hunks (d : FileDiff) (options : List PrintFileDiffOption)
    (h : d.NewName ≠ "") :
    (d.Hunks = none → PrintFileDiff d options = printExtendedHeaders d (getOptions options)) ∧
    (d.Hunks = some [] → PrintFileDiff d options =
      printExtendedHeaders d (getOptions options) ++
        printFileHeader "--- " d.OrigName d.OrigTime (getOptions options).quoteNames ++
        printFileHeader "+++ " d.NewName d.NewTime (getOptions options).quoteNames) := by
  constructor <;> intro hh <;> simp [PrintFileDiff, h, hh, PrintHunks]

/-- Witness for C8: both branches at concrete file diffs. -/
theorem printFileDiff_nil_hunks_witness :
    PrintFileDiff ⟨"a/f", "b/f", none, none, ["index 1..2"], none⟩ [] =
      printExtendedHeaders ⟨"a/f", "b/f", none, none, ["index 1..2"], none⟩ (getOptions []) ∧
    PrintFileDiff ⟨"a/f", "b/f", none, none, [], some []⟩ [] =
      printExtendedHeaders ⟨"a/f", "b/f", none, none, [], some []⟩ (getOptions []) ++
        printFileHeader "--- " "a/f" none (getOptions []).quoteNames ++
        printFileHeader "+++ " "b/f" none (getOptions []).quoteNames :=
  ⟨(printFileDiff_nil_hunks ⟨"a/f", "b/f", none, none, ["index 1..2"], none⟩ []
      (by decide)).1 rfl,
    (printFileDiff_nil_hunks ⟨"a/f", "b/f", none, none, [], some []⟩ []
      (by decide)).2 rfl⟩

/-- C10: `PrintHunks` slices the body at `OrigNoNewlineAt` without a
bounds check: whenever every hunk's `OrigNoNewlineAt` is at most its body
length both slice accesses are in bounds and the checked run returns the
unchecked output, while a single hunk whose (necessarily positive)
`OrigNoNewlineAt` exceeds its body length makes the slicing out of range
and the checked run aborts. -/
theorem printHunks_slicing_bounds :
    (∀ hunks : List Hunk, (∀ h ∈ hunks, h.OrigNoNewlineAt ≤ h.Body.length) →
      PrintHunksChecked hunks = some (PrintHunks hunks)) ∧
    (∀ h : Hunk, h.Body.length < h.OrigNoNewlineAt → PrintHunksChecked [h] = none) := by
  have stepeq : ∀ (buf : List Char) (h : Hunk), h.OrigNoNewlineAt ≤ h.Body.length →
      printHunkStepChecked buf h = some (printHunkStep buf h) := by
    intro buf h hh
    by_cases hn : h.OrigNoNewlineAt = 0 <;>
      simp [printHunkStepChecked, printHunkStep, hn, hh]
  constructor
  · have step : ∀ (l : List Hunk) (buf : List Char),
        (∀ h ∈ l, h.OrigNoNewlineAt ≤ h.Body.length) →
        l.foldlM printHunkStepChecked buf = some (l.foldl printHunkStep buf) := by
      intro l
      induction l with
      | nil => intro buf _; rfl
      | cons h t ih =>
        intro buf hb
        have hh := hb h (List.mem_cons_self h t)
        have ht := fun x hx => hb x (List.mem_cons_of_mem h hx)
        simp [List.foldlM_cons, stepeq buf h hh, ih _ ht]
    intro hunks hb
    exact step hunks [] hb
  · intro h hlt
    have hn : ¬ h.OrigNoNewlineAt = 0 := by omega
    have hle : ¬ h.OrigNoNewlineAt ≤ h.Body.length := by omega
    simp [PrintHunksChecked, printHunkStepChecked, hn, hle]

/-- Witness for C10: an in-bounds and an out-of-range concrete hunk. -/
theorem printHunks_slicing_bounds_witness :
    PrintHunksChecked [⟨1, 1, 1, 1, "", ['a', '\n'], 1⟩] =
      some (PrintHunks [⟨1, 1, 1, 1, "", ['a', '\n'], 1⟩]) ∧
    PrintHunksChecked [⟨1, 1, 1, 1, "", ['a'], 2⟩] = none :=
  ⟨printHunks_slicing_bounds.1 [⟨1, 1, 1, 1, "", ['a', '\n'], 1⟩] (by decide),
    printHunks_slicing_bounds.2 ⟨1, 1, 1, 1, "", ['a'], 2⟩ (by decide)⟩

/-! ## Lexicographic comparison lemmas -/

theorem lexLt_irrefl : ∀ l : List Char, lexLt l l = false
  | [] => rfl
  | a :: as => by simp [lexLt, lexLt_irrefl as]

theorem lexLt_asymm : ∀ a b : List Char, lexLt a b = true → lexLt b a = false
  | _, [], h => by simp [lexLt] at h
  | [], _ :: _, _ => rfl
  | a :: as, b :: bs, h => by
    by_cases hab : a = b
    · subst hab
      simp only [lexLt, if_pos rfl] at h ⊢
      exact lexLt_asymm as bs h
    · have hba : ¬ b = a := fun e => hab e.symm
      simp only [lexLt, if_neg hab, decide_eq_true_eq] at h
      simp only [lexLt, if_neg hba, decide_eq_false_iff_not]
      exact lt_asymm h

theorem lexLt_trans : ∀ a b c : List Char,
    lexLt a b = true → lexLt b c = true → lexLt a c = true
  | _, b, [], _, h2 => by simp [lexLt] at h2
  | a, [], _ :: _, h1, _ => by simp [lexLt] at h1
  | [], _ :: _, _ :: _, _, _ => rfl
  | a :: as, b :: bs, c :: cs, h1, h2 => by
    by_cases hab : a = b <;> by_cases hbc : b = c
    · subst hab; subst hbc
      simp only [lexLt, if_pos rfl] at h1 h2 ⊢
      exact lexLt_trans as bs cs h1 h2
    · subst hab
      simp only [lexLt, if_neg hbc] at h2 ⊢
      exact h2
    · subst hbc
      simp only [lexLt, if_neg hab] at h1 ⊢
      exact h1
    · simp only [lexLt, if_neg hab, if_neg hbc, decide_eq_true_eq] at h1 h2
      have hac : a < c := lt_trans h1 h2
      simp only [lexLt, if_neg (ne_of_lt hac), decide_eq_true_eq]
      exact hac

theorem lexLt_eq_of_not : ∀ a b : List Char,
    lexLt a b = false → lexLt b a = false → a = b
  | [], [], _, _ => rfl
  | [], _ :: _, h1, _ => by simp [lexLt] at h1
  | _ :: _, [], _, h2 => by simp [lexLt] at h2
  | a :: as, b :: bs, h1, h2 => by
    by_cases hab : a = b
    · subst hab
      simp only [lexLt, if_pos rfl] at h1 h2
      rw [lexLt_eq_of_not as bs h1 h2]
    · have hba : ¬ b = a := fun e => hab e.symm
      simp only [lexLt, if_neg hab, decide_eq_false_iff_not] at h1
      simp only [lexLt, if_neg hba, decide_eq_false_iff_not] at h2
      exact absurd (le_antisymm (le_of_not_lt h2) (le_of_not_lt h1)) hab

/-! ## Extended-header orderer lemmas -/

theorem xheaderRank_le (s : String) : xheaderRank s ≤ 4 := by
  unfold xheaderRank
  repeat' split
  all_goals omega

theorem xheadersLessFunc_iff (a b : String) :
    xheadersLessFunc a b = true ↔
      (xheaderRank a < xheaderRank b ∨
        (xheaderRank a = 4 ∧ xheaderRank b = 4 ∧ lexLt a.data b.data = true)) := by
  simp [xheadersLessFunc, Bool.or_eq_true, Bool.and_eq_true, decide_eq_true_eq, beq_iff_eq,
    and_assoc]

theorem xheadersLessFunc_not_iff (a b : String) :
    xheadersLessFunc a b = false ↔
      (¬ xheaderRank a < xheaderRank b ∧
        ¬ (xheaderRank a = 4 ∧ xheaderRank b = 4 ∧ lexLt a.data b.data = true)) := by
  rw [← Bool.not_eq_true, xheadersLessFunc_iff]
  tauto

theorem xheadersLessFunc_irrefl (a : String) : xheadersLessFunc a a = false := by
  rw [xheadersLessFunc_not_iff]
  refine ⟨by omega, ?_⟩
  rintro ⟨-, -, hl⟩
  rw [lexLt_irrefl] at hl
  exact Bool.false_ne_true hl

theorem xheadersLessFunc_asymm (a b : String) (h : xheadersLessFunc a b = true) :
    xheadersLessFunc b a = false := by
  rw [xheadersLessFunc_iff] at h
  rw [xheadersLessFunc_not_iff]
  rcases h with hr | ⟨ha, hb, hl⟩
  · exact ⟨by omega, by rintro ⟨h4, h4b, -⟩; omega⟩
  · refine ⟨by omega, ?_⟩
    rintro ⟨-, -, hl2⟩
    rw [lexLt_asymm a.data b.data hl] at hl2
    exact Bool.false_ne_true hl2

theorem xheadersLessFunc_trans (a b c : String) (h1 : xheadersLessFunc a b = true)
    (h2 : xheadersLessFunc b c = true) : xheadersLessFunc a c = true := by
  rw [xheadersLessFunc_iff] at h1 h2 ⊢
  have hc := xheaderRank_le c
  rcases h1 with hr1 | ⟨ha1, hb1, hl1⟩ <;> rcases h2 with hr2 | ⟨hb2, hc2, hl2⟩
  · exact Or.inl (by omega)
  · exact Or.inl (by omega)
  · omega
  · exact Or.inr ⟨ha1, hc2, lexLt_trans _ _ _ hl1 hl2⟩

theorem xheaderLe_trans (a b c : String) (h1 : xheaderLe a b = true)
    (h2 : xheaderLe b c = true) : xheaderLe a c = true := by
  simp only [xheaderLe, Bool.not_eq_true', Bool.not_eq_true] at h1 h2 ⊢
  rw [xheadersLessFunc_not_iff] at h1 h2 ⊢
  have hla := xheaderRank_le a
  have hlb := xheaderRank_le b
  have hlc := xheaderRank_le c
  refine ⟨by omega, ?_⟩
  rintro ⟨hc4, ha4, hlca⟩
  have hb4 : xheaderRank b = 4 := by omega
  have h1l : lexLt b.data a.data = false := by
    rcases hb : lexLt b.data a.data with _ | _
    · rfl
    · exact absurd ⟨hb4, ha4, hb⟩ h1.2
  have h2l : lexLt c.data b.data = false := by
    rcases hb : lexLt c.data b.data with _ | _
    · rfl
    · exact absurd ⟨hc4, hb4, hb⟩ h2.2
  have hab : lexLt a.data b.data = true ∨ a.data = b.data := by
    rcases hb : lexLt a.data b.data with _ | _
    · exact Or.inr (lexLt_eq_of_not a.data b.data hb h1l)
    · exact Or.inl rfl
  have hbc : lexLt b.data c.data = true ∨ b.data = c.data := by
    rcases hb : lexLt b.data c.data with _ | _
    · exact Or.inr (lexLt_eq_of_not b.data c.data hb h2l)
    · exact Or.inl rfl
  rcases hab with hab | hab <;> rcases hbc with hbc | hbc
  · have := lexLt_asymm _ _ (lexLt_trans _ _ _ hab hbc)
    rw [this] at hlca
    exact Bool.false_ne_true hlca
  · rw [← hbc] at hlca
    have := lexLt_asymm _ _ hab
    rw [this] at hlca
    exact Bool.false_ne_true hlca
  · rw [hab] at hlca
    have := lexLt_asymm _ _ hbc
    rw [this] at hlca
    exact Bool.false_ne_true hlca
  · rw [hab, hbc, lexLt_irrefl] at hlca
    exact Bool.false_ne_true hlca

theorem xheaderLe_total (a b : String) : xheaderLe a b || xheaderLe b a := by
  simp only [xheaderLe, Bool.or_eq_true, Bool.not_eq_true']
  rcases hb : xheadersLessFunc b a with _ | _
  · exact Or.inl rfl
  · exact Or.inr (xheadersLessFunc_asymm b a hb)

/-- In a list sorted by `xheaderLe`, an element strictly below every other
element of the list is the head. -/
theorem sorted_head_eq : ∀ {l : List String} {d : String},
    l.Pairwise (fun a b => xheaderLe a b = true) → d ∈ l →
    (∀ x ∈ l, x = d ∨ xheadersLessFunc d x = true) → ∃ t, l = d :: t := by
  intro l d hp hm hmin
  match l, hp, hm with
  | x :: xs, hp, hm =>
    rcases hmin x (List.mem_cons_self x xs) with he | hlt
    · exact ⟨xs, by rw [he]⟩
    · have hdx : d ∈ xs := by
        rcases List.mem_cons.mp hm with he | hx
        · subst he
          rw [xheadersLessFunc_irrefl] at hlt
          exact absurd hlt Bool.false_ne_true
        · exact hx
      have hle : xheaderLe x d = true := (List.pairwise_cons.mp hp).1 d hdx
      simp only [xheaderLe, Bool.not_eq_true'] at hle
      rw [hle] at hlt
      exact absurd hlt Bool.false_ne_true

/-- C4: the extended-header ordering predicate is irreflexive, asymmetric
and transitive, and sorting any permutation of the seven recognized
header lines of the source's test always places the `diff --git` line
first, the `old mode` line second and the `new mode` line third. -/
theorem xheadersLessFunc_order_and_canonical (l : List String) (hp : l.Perm possibleXheaders) :
    (∀ a, xheadersLessFunc a a = false) ∧
    (∀ a b, xheadersLessFunc a b = true → xheadersLessFunc b a = false) ∧
    (∀ a b c, xheadersLessFunc a b = true → xheadersLessFunc b c = true →
      xheadersLessFunc a c = true) ∧
    (sortXheaders l).take 3 =
      ["diff --git a/file1 b/file2", "old mode 100755", "new mode 100644"] := by
  refine ⟨xheadersLessFunc_irrefl, xheadersLessFunc_asymm, xheadersLessFunc_trans, ?_⟩
  have hperm2 : (sortXheaders l).Perm possibleXheaders :=
    (List.mergeSort_perm l xheaderLe).trans hp
  have hsorted : (sortXheaders l).Pairwise (fun a b => xheaderLe a b = true) := by
    have h : (l.mergeSort xheaderLe).Pairwise (fun a b => xheaderLe a b = true) :=
      List.sorted_mergeSort xheaderLe_trans xheaderLe_total l
    exact h
  -- first element
  have F1 : ∀ x ∈ possibleXheaders, x = "diff --git a/file1 b/file2" ∨
      xheadersLessFunc "diff --git a/file1 b/file2" x = true := by decide
  obtain ⟨t1, ht1⟩ := sorted_head_eq hsorted
    (hperm2.mem_iff.mpr (by decide))
    (fun x hx => F1 x (hperm2.subset hx))
  -- second element
  have hp1 : t1.Pairwise (fun a b => xheaderLe a b = true) := by
    rw [ht1] at hsorted
    exact (List.pairwise_cons.mp hsorted).2
  have hperm3 : t1.Perm ["old mode 100755", "new mode 100644", "similarity index 70%",
      "rename from file1", "rename to file2", "index a9f9a6b..b0e5e4f"] := by
    have e : possibleXheaders.Perm ("diff --git a/file1 b/file2" ::
        ["old mode 100755", "new mode 100644", "similarity index 70%",
          "rename from file1", "rename to file2", "index a9f9a6b..b0e5e4f"]) := by decide
    exact List.Perm.cons_inv ((ht1 ▸ hperm2).trans e)
  have F2 : ∀ x ∈ ["old mode 100755", "new mode 100644", "similarity index 70%",
      "rename from file1", "rename to file2", "index a9f9a6b..b0e5e4f"],
      x = "old mode 100755" ∨ xheadersLessFunc "old mode 100755" x = true := by decide
  obtain ⟨t2, ht2⟩ := sorted_head_eq hp1
    (hperm3.mem_iff.mpr (by decide))
    (fun x hx => F2 x (hperm3.subset hx))
  -- third element
  have hp2 : t2.Pairwise (fun a b => xheaderLe a b = true) := by
    rw [ht2] at hp1
    exact (List.pairwise_cons.mp hp1).2
  have hperm4 : t2.Perm ["new mode 100644", "similarity index 70%",
      "rename from file1", "rename to file2", "index a9f9a6b..b0e5e4f"] := by
    have e : List.Perm ["old mode 100755", "new mode 100644", "similarity index 70%",
        "rename from file1", "rename to file2", "index a9f9a6b..b0e5e4f"]
        ("old mode 100755" :: ["new mode 100644", "similarity index 70%",
          "rename from file1", "rename to file2", "index a9f9a6b..b0e5e4f"]) := by decide
    exact List.Perm.cons_inv ((ht2 ▸ hperm3).trans e)
  have F3 : ∀ x ∈ ["new mode 100644", "similarity index 70%",
      "rename from file1", "rename to file2", "index a9f9a6b..b0e5e4f"],
      x = "new mode 100644" ∨ xheadersLessFunc "new mode 100644" x = true := by decide
  obtain ⟨t3, ht3⟩ := sorted_head_eq hp2
    (hperm4.mem_iff.mpr (by decide))
    (fun x hx => F3 x (hperm4.subset hx))
  rw [ht1, ht2, ht3]
  rfl

/-- Witness for C4: sorting the test's header list (which is not in
canonical order) produces the canonical first three lines. -/
theorem xheadersLessFunc_order_and_canonical_witness :
    (sortXheaders possibleXheaders).take 3 =
      ["diff --git a/file1 b/file2", "old mode 100755", "new mode 100644"] :=
  (xheadersLessFunc_order_and_canonical possibleXheaders (List.Perm.refl _)).2.2.2

end GoDiff

namespace GoDiff

/-! ## Decoder and splitter lemmas -/

/-- C7 helper, over byte values: Go quoting's per-character escape is
inverted by the decoder's unquoting on every ASCII character. -/
theorem quoteChar_unquote_nat :
    ∀ n : Nat, n < 128 → unquoteChars (quoteChar (Char.ofNat n)) = some [Char.ofNat n] := by
  decide

/-- C7 helper: on ASCII characters, Go quoting's per-character escape is
inverted by the decoder's unquoting. -/
theorem quoteChar_unquote (c : Char) (hc : c.toNat < 128) :
    unquoteChars (quoteChar c) = some [c] := by
  have := quoteChar_unquote_nat c.toNat hc
  rwa [Char.ofNat_toNat] at this

end GoDiff

namespace GoDiff

/-- C5 counterexample: the decoder does not fail on the escape `\n`
(whose escaped character is neither a double quote nor a backslash) — it
succeeds and interprets it as a newline, as the source's own
`parseDiffGitArgs` test vectors require. -/
theorem readQuotedFilename_backslash_n_succeeds :
    readQuotedFilename ('"' :: '\\' :: 'n' :: '"' :: []) = some (['\n'], []) ∧
    readQuotedFilename ('"' :: '\\' :: 'n' :: '"' :: []) ≠ none := by
  refine ⟨by decide, by decide⟩

/-- C5 amended: the decoder accepts the full set of Go string-literal
escapes — besides `\"` and `\\` it interprets `\n`, octal, hex and the
other Go escapes; an escape that is not a valid Go escape (such as `\x`
without two hex digits, or `\q`) fails with a malformed-token error, as
does an input not starting with a double quote or lacking a closing
unescaped double quote (including a dangling escape at end of input). -/
theorem readQuotedFilename_go_escapes :
    (∀ s : List Char, s.head? ≠ some '"' → readQuotedFilename s = none) ∧
    readQuotedFilename ('"' :: '\\' :: 'n' :: '"' :: ' ' :: 'r' :: []) =
      some (['\n'], [' ', 'r']) ∧
    readQuotedFilename "\"\\303\\270\"".data = some ([Char.ofNat 0xc3, Char.ofNat 0xb8], []) ∧
    readQuotedFilename "\"\\xxx\"".data = none ∧
    readQuotedFilename ['"'] = none ∧
    readQuotedFilename ['"', '\\', '"'] = none ∧
    readQuotedFilename "\"\\q\"".data = none ∧
    readQuotedFilename "\"\\\"\"".data = some (['"'], []) ∧
    readQuotedFilename "\"\\\\\"".data = some (['\\'], []) := by
  refine ⟨?_, by decide, by decide, by decide, by decide, by decide, by decide, by decide,
    by decide⟩
  intro s hs
  match s with
  | [] => rfl
  | c :: t =>
    have hc : ¬ c = '"' := by
      intro e
      subst e
      exact hs rfl
    simp [readQuotedFilename, hc]

/-- Witness for C5's amended theorem: an input without an opening quote
is rejected. -/
theorem readQuotedFilename_go_escapes_witness :
    readQuotedFilename "foo".data = none :=
  readQuotedFilename_go_escapes.1 "foo".data (by decide)

/-- C6 counterexample: on the all-unquoted ambiguous input of the
source's test, the splitter returns the equal-length (middle-space)
split, which differs from the first left-to-right space position whose
remainder parses as a complete second argument. -/
theorem parseDiffGitArgs_not_first_valid_space :
    parseDiffGitArgs "1/hello world 2/hello world".data =
      some ("1/hello world".data, "2/hello world".data) ∧
    firstValidSpaceSplit "1/hello world 2/hello world".data =
      some ("1/hello".data, "world 2/hello world".data) ∧
    ("1/hello world".data ≠ "1/hello".data) := by
  refine ⟨by decide, by decide, by decide⟩

/-- C6 amended: the splitter succeeds only with two non-empty arguments;
for the ambiguous all-unquoted input with spaces it does not take the
first space whose remainder could be a second argument but the
equal-length heuristic (odd total length with a space in the middle), so
`1/hello world 2/hello world` splits into `1/hello world` and
`2/hello world`; inputs with unconsumed trailing text or edge spaces
fail. -/
theorem parseDiffGitArgs_nonempty_and_middle_split :
    (∀ (s f t : List Char), parseDiffGitArgs s = some (f, t) → f ≠ [] ∧ t ≠ []) ∧
    parseDiffGitArgs "1/hello world 2/hello world".data =
      some ("1/hello world".data, "2/hello world".data) ∧
    parseDiffGitArgs "\"a/bad\" \"b/bad\" \"c/bad\"".data = none ∧
    parseDiffGitArgs "word ".data = none ∧
    parseDiffGitArgs " word".data = none := by
  refine ⟨?_, by decide, by decide, by decide, by decide⟩
  intro s f t h
  unfold parseDiffGitArgs at h
  rcases he : extractDiffGitArgs s with _ | ⟨f0, t0⟩
  · rw [he] at h
    exact absurd h (by simp)
  · rw [he] at h
    dsimp only at h
    by_cases hc : f0 ≠ [] ∧ t0 ≠ []
    · rw [if_pos hc] at h
      simp only [Option.some.injEq, Prod.mk.injEq] at h
      obtain ⟨rfl, rfl⟩ := h
      exact hc
    · rw [if_neg hc] at h
      exact absurd h (by simp)

/-- Witness for C6's amended theorem: a successful split yields two
non-empty arguments. -/
theorem parseDiffGitArgs_nonempty_witness :
    "aaa".data ≠ ([] : List Char) ∧ "bbb".data ≠ ([] : List Char) :=
  parseDiffGitArgs_nonempty_and_middle_split.1 "aaa bbb".data "aaa".data "bbb".data (by decide)

/-- C7: the filename quoting function passes `/dev/null` and any string
already starting with a double quote through unchanged; every other
string is wrapped in double quotes with each contained character escaped
per `quoteChar`, and on ASCII characters — including quote, backslash and
the control characters — that escape is the inverse of the decoder's
escape mapping. -/
theorem quote_passthrough_and_escape :
    (quote "/dev/null" = "/dev/null") ∧
    (∀ s : String, s.data.head? = some '"' → quote s = s) ∧
    (∀ s : String, s ≠ "/dev/null" → s.data.head? ≠ some '"' →
      quote s = ⟨'"' :: s.data.flatMap quoteChar ++ ['"']⟩) ∧
    (∀ c : Char, c.toNat < 128 → unquoteChars (quoteChar c) = some [c]) := by
  refine ⟨rfl, ?_, ?_, quoteChar_unquote⟩
  · intro s hs
    by_cases h1 : s = "/dev/null"
    · unfold quote
      rw [if_pos h1]
    · unfold quote
      rw [if_neg h1, if_pos hs]
  · intro s h1 h2
    simp [quote, h1, h2, goQuote]

/-- Witness for C7: each guarded branch at a concrete input. -/
theorem quote_passthrough_and_escape_witness :
    quote "\"x" = "\"x" ∧
    quote "ab" = ⟨'"' :: "ab".data.flatMap quoteChar ++ ['"']⟩ ∧
    unquoteChars (quoteChar 'a') = some ['a'] :=
  ⟨quote_passthrough_and_escape.2.1 "\"x" (by decide),
    quote_passthrough_and_escape.2.2.1 "ab" (by decide) (by decide),
    quote_passthrough_and_escape.2.2.2 'a' (by decide)⟩

end GoDiff

namespace GoDiff

/-! ## Validation: the source's test vectors

Every test vector of the source's test file is reproduced by the model:
`TestReadQuotedFilename_Success`, `TestReadQuotedFilename_Error`,
`TestParseDiffGitArgs_Success` and `TestParseDiffGitArgs_Unsuccessful`. -/

example : readQuotedFilename "\"\"".data = some ([], []) := by decide

example : readQuotedFilename "\"aaa\"".data = some ("aaa".data, []) := by decide

example : readQuotedFilename "\"aaa\" bbb".data = some ("aaa".data, " bbb".data) := by decide

example : readQuotedFilename "\"aaa\" \"bbb\" ccc".data =
    some ("aaa".data, " \"bbb\" ccc".data) := by decide

example : readQuotedFilename "\"\\\"\"".data = some ("\"".data, []) := by decide

example : readQuotedFilename "\"uh \\\"oh\\\"\"".data =
    some ("uh \"oh\"".data, []) := by decide

example : readQuotedFilename "\"uh \\\\\"oh\\\\\"\"".data =
    some ("uh \\".data, "oh\\\\\"\"".data) := by decide

example : readQuotedFilename "\"uh \\\\\\\"oh\\\\\\\"\"".data =
    some ("uh \\\"oh\\\"".data, []) := by decide

example : readQuotedFilename [] = none := by decide

example : readQuotedFilename "foo".data = none := by decide

example : readQuotedFilename " \"foo\"".data = none := by decide

example : readQuotedFilename "\"".data = none := by decide

example : readQuotedFilename "\"\\\"".data = none := by decide

example : readQuotedFilename "\"\\xxx\"".data = none := by decide

example : parseDiffGitArgs "aaa bbb".data = some ("aaa".data, "bbb".data) := by decide

example : parseDiffGitArgs "\"aaa\" bbb".data = some ("aaa".data, "bbb".data) := by decide

example : parseDiffGitArgs "aaa \"bbb\"".data = some ("aaa".data, "bbb".data) := by decide

example : parseDiffGitArgs "\"aaa\" \"bbb\"".data = some ("aaa".data, "bbb".data) := by decide

example : parseDiffGitArgs "1/a 2/z".data = some ("1/a".data, "2/z".data) := by decide

example : parseDiffGitArgs "1/hello world 2/hello world".data =
    some ("1/hello world".data, "2/hello world".data) := by decide

example : parseDiffGitArgs "\"new\\nline\" and spaces".data =
    some ("new\nline".data, "and spaces".data) := by decide

example : parseDiffGitArgs "a/existing file with spaces \"b/new, complicated\\nfilen\\303\\270me\"".data =
    some ("a/existing file with spaces".data,
      "b/new, complicated\nfilen".data ++ [Char.ofNat 0xc3, Char.ofNat 0xb8] ++ "me".data) := by
  decide

example : parseDiffGitArgs [] = none := by decide

example : parseDiffGitArgs "hello_world.txt".data = none := by decide

example : parseDiffGitArgs "word ".data = none := by decide

example : parseDiffGitArgs " word".data = none := by decide

example : parseDiffGitArgs "\"a/bad_quoting b/bad_quoting".data = none := by decide

example : parseDiffGitArgs "a/bad_quoting \"b/bad_quoting".data = none := by decide

example : parseDiffGitArgs "a/bad_quoting b/bad_quoting\"".data = none := by decide

example : parseDiffGitArgs "\"a/bad_quoting b/bad_quoting\"".data = none := by decide

example : parseDiffGitArgs "\"a/bad\"\"b/bad\"".data = none := by decide

example : parseDiffGitArgs "\"a/bad\" \"b/bad\" \"c/bad\"".data = none := by decide

example : parseDiffGitArgs "a/bad \"b/bad\" \"c/bad\"".data = none := by decide

end GoDiff
